import Mathlib

/-!
Verification of the property-embedding enrichment pipeline.

The pipeline reads listing records from a source collection, partitions them
over parallel workers, builds a textual description per record, requests an
embedding vector from an external provider with bounded retry/backoff, and
writes `{metadata, embeddings}` documents to a target collection in batches
of 50, skipping records whose identifier already has a target entry.

This file shallowly embeds the TypeScript implementation (the cluster-based
script: `createPropertyDescription`, `generateEmbeddingWithRetry`,
`processProperties`, `primaryProcess`) and the Go re-implementation's
description builder (`createPropertyDescription` in `main.go`), and proves
properties of those embeddings.  Numeric record fields are modelled as
natural numbers (the exact, integer-valued fragment of the JS/Go number
types); string primitives (`includes`, `trim`, `endsWith`, `toLowerCase`,
decimal rendering) are modelled on character lists.
-/

/-- Occurrence test of `pat` at offset `i` of `l`. -/
def subAt (pat l : List Char) (i : Nat) : Bool :=
  ((l.drop i).take pat.length) == pat

/-- Substring containment on character lists. -/
def hasSub (l pat : List Char) : Bool :=
  (List.range (l.length + 1)).any (subAt pat l)

/-- Models JS `String.prototype.includes` / Go `strings.Contains`
(case-sensitive substring test). -/
def strIncludes (s pat : String) : Bool :=
  hasSub s.data pat.data

/-- Models Go `strings.ToLower` (ASCII-relevant fragment). -/
def strLower (s : String) : String :=
  String.mk (s.data.map Char.toLower)

/-- Drop whitespace from both ends of a character list. -/
def trimChars (l : List Char) : List Char :=
  ((l.dropWhile Char.isWhitespace).reverse.dropWhile Char.isWhitespace).reverse

/-- Models JS `String.prototype.trim` / Go `strings.TrimSpace`. -/
def strTrim (s : String) : String :=
  String.mk (trimChars s.data)

/-- `s` consists of whitespace only; equivalently JS `s.trim() === ""`. -/
def allWhite (s : String) : Bool :=
  s.data.all (fun c => c.isWhitespace)

/-- Models JS `s.endsWith(": ")`: the last two characters are `':'` then `' '`. -/
def endsColonSpace (s : String) : Bool :=
  match s.data.reverse with
  | c1 :: c2 :: _ => c1 == ' ' && c2 == ':'
  | _ => false

/-- Decimal digits of `n` prepended to `acc`, with recursion fuel. -/
def natStrAux (fuel : Nat) (n : Nat) (acc : List Char) : List Char :=
  match fuel with
  | 0 => acc
  | fuel + 1 =>
    let d := Char.ofNat (48 + n % 10)
    if n < 10 then d :: acc else natStrAux fuel (n / 10) (d :: acc)

/-- Decimal rendering of a natural number: models JS number-to-string
interpolation and Go `%d` on (integer-valued) numeric fields. -/
def natStr (n : Nat) : String :=
  String.mk (natStrAux (n + 1) n [])

/-- Models Go `fmt.Sprintf("%.2f", x)` on an integer-valued float. -/
def goFloat (n : Nat) : String :=
  natStr n ++ ".00"

/-- Advertisement sub-object of a property (`ad` in the source document). -/
structure Ad where
  title : String
  description : String
  transactionType : String
  deriving DecidableEq, Repr

/-- Source listing record (`Property` in both implementations).  Fields that
the pipeline never reads (company, agent, images, fees, ids other than `_id`)
are omitted; absent numeric fields are 0 and absent strings are `""`, matching
the `|| 0` / `|| ""` defaulting in the TypeScript and the zero-values produced
by Go's `omitempty` decoding.  `_id` is modelled as a natural number key. -/
structure Property where
  id : Nat
  region : String
  city : String
  state : String
  ad : Option Ad
  area : Nat
  rentPrice : Nat
  askingPrice : Nat
  totalArea : Nat
  suites : Nat
  bedrooms : Nat
  bathrooms : Nat
  parkingSpots : Nat
  isExclusive : Bool
  building : String
  features : List String
  propertyType : String
  deriving DecidableEq, Repr

/-- `property.ad?.title || ""`. -/
def adTitle (p : Property) : String :=
  match p.ad with
  | some a => a.title
  | none => ""

/-- `property.ad?.description || ""`. -/
def adDescription (p : Property) : String :=
  match p.ad with
  | some a => a.description
  | none => ""

/-- `property.ad?.transactionType || ""`. -/
def adTransactionType (p : Property) : String :=
  match p.ad with
  | some a => a.transactionType
  | none => ""

/-- The price segment of the TypeScript description: the ternary
`property.ad?.transactionType?.includes("rent") ? Rent-price : Sale-price`
(an absent transaction type is falsy and selects the Sale branch, exactly as
`strIncludes "" "rent" = false` does here). -/
def tsPrice (p : Property) : String :=
  if strIncludes (adTransactionType p) "rent" then
    "Rent $" ++ natStr p.rentPrice
  else
    "Sale $" ++ natStr p.askingPrice

/-- The fifteen template lines of the TypeScript `createPropertyDescription`,
in source order, before filtering. -/
def tsRawLines (p : Property) : List String :=
  [ "Title: " ++ adTitle p,
    "Description: " ++ adDescription p,
    "Location: " ++ p.region ++ ", " ++ p.city ++ ", " ++ p.state,
    "Property Type: " ++ p.propertyType,
    "Transaction Type: " ++ adTransactionType p,
    "Area: " ++ natStr p.area ++ " m²",
    "Total Area: " ++ natStr p.totalArea ++ " m²",
    "Price: " ++ tsPrice p,
    "Bedrooms: " ++ natStr p.bedrooms,
    "Suites: " ++ natStr p.suites,
    "Bathrooms: " ++ natStr p.bathrooms,
    "Parking Spots: " ++ natStr p.parkingSpots,
    "Building: " ++ p.building,
    "Exclusive: " ++ (if p.isExclusive then "Yes" else "No"),
    "Features: " ++ String.intercalate ", " p.features ]

/-- The TypeScript filter predicate
`line => line.trim() !== "" && !line.endsWith(": ")`. -/
def keepLine (l : String) : Bool :=
  !(allWhite l) && !(endsColonSpace l)

/-- The surviving lines of the TypeScript description. -/
def tsLines (p : Property) : List String :=
  (tsRawLines p).filter keepLine

/-- TypeScript `createPropertyDescription`: template lines, filtered,
joined with newlines. -/
def createPropertyDescription (p : Property) : String :=
  String.intercalate "\n" (tsLines p)

/-- Go `createPropertyDescription` from `main.go`: conditional appends,
`%.2f` float rendering, case-insensitive rent test, trimmed location. -/
def goCreatePropertyDescription (p : Property) : String :=
  let features := String.intercalate ", " p.features
  let location := strTrim (p.region ++ ", " ++ p.city ++ ", " ++ p.state)
  let isRent :=
    adTransactionType p ≠ "" && strIncludes (strLower (adTransactionType p)) "rent"
  let lines :=
    (if adTitle p ≠ "" then ["Title: " ++ adTitle p] else []) ++
    (if adDescription p ≠ "" then ["Description: " ++ adDescription p] else []) ++
    (if location ≠ ",," then ["Location: " ++ location] else []) ++
    (if p.propertyType ≠ "" then ["Property Type: " ++ p.propertyType] else []) ++
    (if adTransactionType p ≠ "" then
      ["Transaction Type: " ++ adTransactionType p] else []) ++
    (if p.area > 0 then ["Area: " ++ goFloat p.area ++ " m²"] else []) ++
    (if p.totalArea > 0 then ["Total Area: " ++ goFloat p.totalArea ++ " m²"] else []) ++
    (if isRent && p.rentPrice > 0 then
      ["Price: Rent $" ++ goFloat p.rentPrice]
     else if p.askingPrice > 0 then
      ["Price: Sale $" ++ goFloat p.askingPrice]
     else []) ++
    (if p.bedrooms > 0 then ["Bedrooms: " ++ natStr p.bedrooms] else []) ++
    (if p.suites > 0 then ["Suites: " ++ natStr p.suites] else []) ++
    (if p.bathrooms > 0 then ["Bathrooms: " ++ natStr p.bathrooms] else []) ++
    (if p.parkingSpots > 0 then ["Parking Spots: " ++ natStr p.parkingSpots] else []) ++
    (if p.building ≠ "" then ["Building: " ++ p.building] else []) ++
    ["Exclusive: " ++ (if p.isExclusive then "Yes" else "No")] ++
    (if features ≠ "" then ["Features: " ++ features] else [])
  String.intercalate "\n" lines

/-- The all-default record: every string empty, every numeric 0,
no `ad` sub-object, not exclusive, no features. -/
def pZero : Property :=
  { id := 0, region := "", city := "", state := "", ad := none, area := 0,
    rentPrice := 0, askingPrice := 0, totalArea := 0, suites := 0,
    bedrooms := 0, bathrooms := 0, parkingSpots := 0, isExclusive := false,
    building := "", features := [], propertyType := "" }

/-- Embedding vectors, as returned by the provider. -/
abbrev Vec := List Int

/-- Outcome of one invocation of the retrying embedding client:
the returned value (`none` on retry exhaustion), the number of provider
calls actually made, and the backoff delays (milliseconds, exact rational
arithmetic) slept between consecutive attempts, in order. -/
structure RetryTrace where
  result : Option Vec
  calls : Nat
  delays : List ℚ
  deriving DecidableEq, Repr

/-- One step of the `while (retries < maxRetries)` loop of
`generateEmbeddingWithRetry`.  `stub i` is the provider response to the
`(i+1)`-st call; `rand i` is the `Math.random()` draw made after a failure
when `retries` was `i`.  `fuel` bounds the recursion and is set to
`maxRetries` at the top, which the loop never exceeds. -/
def retryAux (stub : Nat → Option Vec) (rand : Nat → ℚ)
    (maxRetries : Nat) : Nat → Nat → RetryTrace
  | _, 0 => ⟨none, 0, []⟩
  | retries, fuel + 1 =>
    if retries < maxRetries then
      match stub retries with
      | some v => ⟨some v, 1, []⟩
      | none =>
        let r := retries + 1
        if r ≥ maxRetries then ⟨none, 1, []⟩
        else
          let d : ℚ := 1000 * 2 ^ (r - 1) * (1/2 + rand retries)
          let rest := retryAux stub rand maxRetries r fuel
          ⟨rest.result, rest.calls + 1, d :: rest.delays⟩
    else ⟨none, 0, []⟩

/-- TypeScript `generateEmbeddingWithRetry` (default `maxRetries = 5`,
`initialBackoff = 1000`), parameterised by the provider stub and the
random-number stream. -/
def generateEmbeddingWithRetry (stub : Nat → Option Vec) (rand : Nat → ℚ)
    (maxRetries : Nat := 5) : RetryTrace :=
  retryAux stub rand maxRetries 0 maxRetries

/-- A record handed to the batch writer: `{metadata, embeddings}`. -/
structure EnrichedP where
  metadata : Property
  embeddings : Vec
  deriving DecidableEq, Repr

/-- `BATCH_SIZE` / `batchSize` in both implementations. -/
def batchSizeConst : Nat := 50

/-- Worker-loop state of `processProperties`: the 1-based scan counter,
the `propertiesProcessed` counter, the pending `batchDocuments`
accumulator, the `insertMany` calls attempted so far (batch passed and
whether the call succeeded), the cumulative number of embedding-provider
calls, and the records pushed to the accumulator (handed to the writer). -/
structure WState where
  currentIndex : Nat
  processed : Nat
  batch : List EnrichedP
  attempts : List (List EnrichedP × Bool)
  embedCalls : Nat
  handed : List EnrichedP
  deriving Repr

/-- The partition predicate of the worker loop (and of the spec):
a 0-based scan index is owned by `workerId` when
`index % totalWorkers == workerId - 1`. -/
def ownedBy (index workerId totalWorkers : Nat) : Bool :=
  (index % totalWorkers) == (workerId - 1)

/-- The body of `for await (const property of cursor)` in the TypeScript
`processProperties`.  `target` is the set of source identifiers already
present in the target collection (the dedup lookup); `insertOk i` tells
whether the `(i+1)`-st `insertMany` call of this worker succeeds; `embed`
abstracts `generateEmbeddingWithRetry` applied to the description text.
On a failed bulk insert the accumulator is *not* cleared (the TypeScript
reassignment `batchDocuments = []` sits inside the `try`, before the
`catch`). -/
def stepRecord (workerId totalWorkers : Nat) (target : List Nat)
    (insertOk : Nat → Bool) (embed : String → RetryTrace)
    (s : WState) (p : Property) : WState :=
  let idx := s.currentIndex + 1
  if ((idx - 1) % totalWorkers) ≠ (workerId - 1) then
    { s with currentIndex := idx }
  else
    let processed := s.processed + 1
    if p.id ∈ target then
      { s with currentIndex := idx, processed := processed }
    else
      let description := createPropertyDescription p
      let tr := embed description
      let embedCalls := s.embedCalls + tr.calls
      match tr.result with
      | none =>
        { s with currentIndex := idx, processed := processed,
                 embedCalls := embedCalls }
      | some v =>
        let doc : EnrichedP := ⟨p, v⟩
        let batch := s.batch ++ [doc]
        let handed := s.handed ++ [doc]
        if batch.length ≥ batchSizeConst then
          let ok := insertOk s.attempts.length
          { currentIndex := idx, processed := processed,
            batch := if ok then [] else batch,
            attempts := s.attempts ++ [(batch, ok)],
            embedCalls := embedCalls, handed := handed }
        else
          { s with currentIndex := idx, processed := processed,
                   batch := batch, embedCalls := embedCalls, handed := handed }

/-- TypeScript `processProperties`: fold the record loop over the source
stream, then flush any remaining partial batch. -/
def processProperties (workerId totalWorkers : Nat) (target : List Nat)
    (insertOk : Nat → Bool) (embed : String → RetryTrace)
    (stream : List Property) : WState :=
  let s := stream.foldl (stepRecord workerId totalWorkers target insertOk embed)
    ⟨0, 0, [], [], 0, []⟩
  if s.batch.length > 0 then
    let ok := insertOk s.attempts.length
    { s with attempts := s.attempts ++ [(s.batch, ok)],
             batch := if ok then [] else s.batch }
  else s

/-- A message a worker sends to the primary: `{type: 'complete', ...,
propertiesProcessed}` or `{type: 'error', ...}`. -/
inductive WMsg where
  | complete (workerId count : Nat)
  | err (workerId : Nat)
  deriving DecidableEq, Repr

/-- Aggregation state of the primary process. -/
structure CoordState where
  completedWorkers : Nat
  totalProcessed : Nat
  terminated : Bool
  deriving DecidableEq, Repr

/-- The `cluster.on('message', ...)` handler of `primaryProcess`:
a `complete` message adds the count and increments `completedWorkers`,
calling `process.exit(0)` (modelled by latching `terminated`) exactly when
`completedWorkers` reaches `maxWorkers`; an `error` message is only
logged. -/
def coordStep (maxW : Nat) (s : CoordState) (m : WMsg) : CoordState :=
  match m with
  | .complete _ c =>
    let tp := s.totalProcessed + c
    let cw := s.completedWorkers + 1
    { completedWorkers := cw, totalProcessed := tp,
      terminated := s.terminated || (cw == maxW) }
  | .err _ => s

/-- The primary process's reaction to a finite sequence of worker
messages, from the initial `completedWorkers = 0, totalProcessed = 0`
state. -/
def coordRun (maxW : Nat) (msgs : List WMsg) : CoordState :=
  msgs.foldl (coordStep maxW) ⟨0, 0, false⟩

/-- Number of owned 0-based indices among `start, start+1, …, start+len-1`
for worker `w` of `n`. -/
def ownedCountFrom (w n start : Nat) : Nat → Nat
  | 0 => 0
  | len + 1 =>
    (if start % n = w - 1 then 1 else 0) + ownedCountFrom w n (start + 1) len

/-- `b` extends `a` on the right. -/
def extendsRight (a b : List EnrichedP) : Prop := ∃ t, b = a ++ t

/-- Along the sequence of `insertMany` calls, every failed call's batch is
carried into the next call. -/
def chainKept : List (List EnrichedP × Bool) → Prop
  | [] => True
  | [_] => True
  | x :: y :: rest =>
    (x.2 = false → extendsRight x.1 y.1) ∧ chainKept (y :: rest)

/-- The pending accumulator extends the batch of the last failed call. -/
def lastKept (attempts : List (List EnrichedP × Bool))
    (batch : List EnrichedP) : Prop :=
  ∀ b, attempts.getLast? = some (b, false) → extendsRight b batch

/-- Is the message a `complete` report? -/
def isCompleteMsg : WMsg → Bool
  | .complete _ _ => true
  | .err _ => false

/-- The count carried by a message (`propertiesProcessed || 0`). -/
def msgCount : WMsg → Nat
  | .complete _ c => c
  | .err _ => 0

/-- A record advertised with transaction type `"Rent"` (capital R). -/
def pRent : Property :=
  { pZero with
      ad := some { title := "", description := "", transactionType := "Rent" },
      rentPrice := 100,
      askingPrice := 200 }

/-- The all-default record with a chosen exclusivity flag. -/
def pEmptyEx (b : Bool) : Property := { pZero with isExclusive := b }

/-- A 51-record stream of all-default records with distinct identifiers. -/
def c3Stream : List Property :=
  (List.range 51).map (fun i => { pZero with id := i })

/-- Single worker over `c3Stream`, empty target store, embedding always
succeeds in one call, and the first `insertMany` call fails. -/
def c3Run : WState :=
  processProperties 1 1 [] (fun j => j != 0) (fun _ => ⟨some [1], 1, []⟩)
    c3Stream

/-- The `j`-th `insertMany` call of `c3Run` (batch, success flag). -/
def c3Att (j : Nat) : List EnrichedP × Bool :=
  (c3Run.attempts.get? j).getD ([], true)


/-! ### Helper lemmas: decimal rendering and the line filter -/

/-- `natStrAux` only prepends to its accumulator. -/
lemma natStrAux_append : ∀ (fuel n : Nat) (acc : List Char),
    ∃ t, natStrAux fuel n acc = t ++ acc := by
  intro fuel
  induction fuel with
  | zero => intro n acc; exact ⟨[], rfl⟩
  | succ fuel ih =>
    intro n acc
    by_cases h : n < 10
    · exact ⟨[Char.ofNat (48 + n % 10)], by simp [natStrAux, h]⟩
    · obtain ⟨t, ht⟩ := ih (n / 10) (Char.ofNat (48 + n % 10) :: acc)
      exact ⟨t ++ [Char.ofNat (48 + n % 10)], by simp [natStrAux, h, ht]⟩

/-- The last character of `natStr n` is the units digit. -/
lemma natStr_data_eq : ∀ n : Nat,
    ∃ t, (natStr n).data = t ++ [Char.ofNat (48 + n % 10)] := by
  intro n
  unfold natStr
  by_cases h : n < 10
  · exact ⟨[], by simp [natStrAux, h]⟩
  · obtain ⟨t, ht⟩ := natStrAux_append (n + 1 - 1) (n / 10) [Char.ofNat (48 + n % 10)]
    refine ⟨t, ?_⟩
    show natStrAux (n + 1) n [] = _
    rw [show n + 1 = (n + 1 - 1) + 1 from rfl]
    simp only [natStrAux, h, if_false]
    exact ht

/-- Units digits are never whitespace. -/
lemma digitChar_not_white (n : Nat) :
    (Char.ofNat (48 + n % 10)).isWhitespace = false := by
  have h : n % 10 < 10 := Nat.mod_lt _ (by norm_num)
  interval_cases h' : n % 10 <;> decide

/-- The last character of `natStr n` is not whitespace. -/
lemma natStr_getLast_not_white (n : Nat) (c : Char)
    (h : (natStr n).data.getLast? = some c) : c.isWhitespace = false := by
  obtain ⟨t, ht⟩ := natStr_data_eq n
  rw [ht, List.getLast?_concat] at h
  cases h
  exact digitChar_not_white n

/-- A line whose final character is not whitespace passes the TypeScript
filter: it is not whitespace-only and cannot end with `": "`. -/
lemma keepLine_of_getLast (l : String) (c : Char)
    (h : l.data.getLast? = some c) (hw : c.isWhitespace = false) :
    keepLine l = true := by
  have hmem : c ∈ l.data := List.mem_of_mem_getLast? h
  have hall : allWhite l = false := by
    unfold allWhite
    rw [Bool.eq_false_iff]
    intro hcon
    rw [List.all_eq_true] at hcon
    have := hcon c hmem
    rw [hw] at this
    exact Bool.false_ne_true this
  have hcs : endsColonSpace l = false := by
    unfold endsColonSpace
    have hrev : l.data.reverse.head? = some c := by
      rw [List.head?_reverse, h]
    cases hr : l.data.reverse with
    | nil => rfl
    | cons c1 rest =>
      rw [hr] at hrev
      simp only [List.head?] at hrev
      cases hrev
      cases rest with
      | nil => rfl
      | cons c2 rest' =>
        have hc : c ≠ ' ' := by
          intro he
          rw [he] at hw
          exact absurd hw (by decide)
        simp [hc]
  unfold keepLine
  rw [hall, hcs]
  rfl

/-- Appending a string with a non-whitespace last character yields a kept
line. -/
lemma keepLine_append (s t : String) (c : Char)
    (h : t.data.getLast? = some c) (hw : c.isWhitespace = false) :
    keepLine (s ++ t) = true := by
  have hne : t.data ≠ [] := by
    intro he
    rw [he] at h
    simp at h
  apply keepLine_of_getLast (s ++ t) c
  · rw [String.data_append, List.getLast?_append_of_ne_nil _ hne]
    exact h
  · exact hw

/-- A line ending in a decimal numeral is kept. -/
lemma keepLine_append_natStr (s : String) (n : Nat) :
    keepLine (s ++ natStr n) = true := by
  obtain ⟨t, ht⟩ := natStr_data_eq n
  exact keepLine_append s (natStr n) _ (by rw [ht, List.getLast?_concat])
    (digitChar_not_white n)

/-! ### Helper lemmas: the worker loop -/


/-- Each loop iteration advances the scan counter by exactly one. -/
lemma stepRecord_currentIndex (w n : Nat) (target : List Nat)
    (io : Nat → Bool) (e : String → RetryTrace) (s : WState) (p : Property) :
    (stepRecord w n target io e s p).currentIndex = s.currentIndex + 1 := by
  unfold stepRecord
  dsimp only
  split
  · rfl
  · split
    · rfl
    · split
      · rfl
      · split
        · rfl
        · rfl

/-- `propertiesProcessed` increments exactly on owned indices, regardless of
dedup result, embedding outcome, or insert outcome. -/
lemma stepRecord_processed (w n : Nat) (target : List Nat)
    (io : Nat → Bool) (e : String → RetryTrace) (s : WState) (p : Property) :
    (stepRecord w n target io e s p).processed =
      s.processed + (if s.currentIndex % n = w - 1 then 1 else 0) := by
  unfold stepRecord
  dsimp only
  rw [Nat.add_sub_cancel]
  by_cases h : s.currentIndex % n = w - 1
  · rw [if_neg (not_not_intro h), if_pos h]
    split
    · rfl
    · split
      · rfl
      · split
        · rfl
        · rfl
  · rw [if_pos h, if_neg h]
    rfl

/-- Over any stream segment, `propertiesProcessed` grows by the number of
owned indices in that segment. -/
lemma foldl_processed (w n : Nat) (target : List Nat)
    (io : Nat → Bool) (e : String → RetryTrace) :
    ∀ (stream : List Property) (s : WState),
      (stream.foldl (stepRecord w n target io e) s).processed
        = s.processed + ownedCountFrom w n s.currentIndex stream.length := by
  intro stream
  induction stream with
  | nil => intro s; simp [ownedCountFrom]
  | cons p rest ih =>
    intro s
    rw [List.foldl_cons, ih]
    rw [stepRecord_processed, stepRecord_currentIndex]
    show s.processed + _ + _ = s.processed + ownedCountFrom w n s.currentIndex (rest.length + 1)
    rw [ownedCountFrom]
    omega

/-- A record whose identifier is already in the target store only advances
the counters: the dedup check short-circuits the rest of the body. -/
lemma stepRecord_mem_target (w n : Nat) (target : List Nat)
    (io : Nat → Bool) (e : String → RetryTrace) (s : WState) (p : Property)
    (h : p.id ∈ target) :
    stepRecord w n target io e s p =
      { s with currentIndex := s.currentIndex + 1,
               processed := s.processed +
                 if s.currentIndex % n = w - 1 then 1 else 0 } := by
  unfold stepRecord
  dsimp only
  rw [Nat.add_sub_cancel]
  by_cases hw : s.currentIndex % n = w - 1
  · rw [if_neg (not_not_intro hw), if_pos h, if_pos hw]
  · rw [if_pos hw, if_neg hw]
    simp

/-- If every streamed record is already present in the target store, the
fold performs no embedding call, no insert, and no handoff. -/
lemma foldl_dedup_inv (w n : Nat) (target : List Nat)
    (io : Nat → Bool) (e : String → RetryTrace) :
    ∀ (stream : List Property) (s : WState),
      (∀ p ∈ stream, p.id ∈ target) →
      (stream.foldl (stepRecord w n target io e) s).batch = s.batch ∧
      (stream.foldl (stepRecord w n target io e) s).attempts = s.attempts ∧
      (stream.foldl (stepRecord w n target io e) s).embedCalls = s.embedCalls ∧
      (stream.foldl (stepRecord w n target io e) s).handed = s.handed := by
  intro stream
  induction stream with
  | nil => intro s _; exact ⟨rfl, rfl, rfl, rfl⟩
  | cons p rest ih =>
    intro s hall
    rw [List.foldl_cons,
        stepRecord_mem_target w n target io e s p (hall p (List.mem_cons_self p rest))]
    exact ih _ (fun q hq => hall q (List.mem_cons_of_mem _ hq))

/-! ### Helper lemmas: batch retention across failed inserts -/


lemma extendsRight_rfl (a : List EnrichedP) : extendsRight a a :=
  ⟨[], by simp⟩

lemma extendsRight_snoc (a b : List EnrichedP) (x : EnrichedP)
    (h : extendsRight a b) : extendsRight a (b ++ [x]) := by
  obtain ⟨t, ht⟩ := h
  exact ⟨t ++ [x], by rw [ht, List.append_assoc]⟩

lemma chainKept_append :
    ∀ (l : List (List EnrichedP × Bool)) (a : List EnrichedP × Bool),
      chainKept l →
      (∀ b, l.getLast? = some (b, false) → extendsRight b a.1) →
      chainKept (l ++ [a]) := by
  intro l
  induction l with
  | nil => intro a _ _; simp [chainKept]
  | cons x xs ih =>
    intro a hc hl
    cases xs with
    | nil =>
      obtain ⟨b1, o1⟩ := x
      refine ⟨?_, trivial⟩
      intro ho
      apply hl b1
      have ho' : o1 = false := ho
      rw [ho']
      rfl
    | cons y rest =>
      rw [List.cons_append]
      have hc' : chainKept (y :: rest) := hc.2
      have h2 : chainKept ((y :: rest) ++ [a]) := by
        apply ih a hc'
        intro b hb
        apply hl b
        rw [List.getLast?_cons_cons]
        exact hb
      exact ⟨hc.1, h2⟩

/-- Each loop iteration preserves the batch-retention invariant. -/
lemma stepRecord_chainKept (w n : Nat) (target : List Nat)
    (io : Nat → Bool) (e : String → RetryTrace) (s : WState) (p : Property)
    (hc : chainKept s.attempts) (hl : lastKept s.attempts s.batch) :
    chainKept (stepRecord w n target io e s p).attempts ∧
      lastKept (stepRecord w n target io e s p).attempts
        (stepRecord w n target io e s p).batch := by
  unfold stepRecord
  dsimp only
  split
  · exact ⟨hc, hl⟩
  · split
    · exact ⟨hc, hl⟩
    · split
      · exact ⟨hc, hl⟩
      · split
        · -- flush branch: a new insertMany call is recorded
          constructor
          · apply chainKept_append _ _ hc
            intro b hb
            exact extendsRight_snoc _ _ _ (hl b hb)
          · intro b hb
            rw [List.getLast?_concat] at hb
            cases hb' : (io s.attempts.length) with
            | true =>
              rw [hb'] at hb
              cases hb
            | false =>
              rw [hb'] at hb
              cases hb
              simp only [hb', if_neg]
              exact extendsRight_rfl _
        · -- append without flush
          refine ⟨hc, ?_⟩
          intro b hb
          exact extendsRight_snoc _ _ _ (hl b hb)

/-- The batch-retention invariant holds after folding any stream segment. -/
lemma foldl_chainKept (w n : Nat) (target : List Nat)
    (io : Nat → Bool) (e : String → RetryTrace) :
    ∀ (stream : List Property) (s : WState),
      chainKept s.attempts → lastKept s.attempts s.batch →
      chainKept ((stream.foldl (stepRecord w n target io e) s).attempts) ∧
        lastKept ((stream.foldl (stepRecord w n target io e) s).attempts)
          ((stream.foldl (stepRecord w n target io e) s).batch) := by
  intro stream
  induction stream with
  | nil => intro s hc hl; exact ⟨hc, hl⟩
  | cons p rest ih =>
    intro s hc hl
    rw [List.foldl_cons]
    obtain ⟨hc', hl'⟩ := stepRecord_chainKept w n target io e s p hc hl
    exact ih _ hc' hl'

/-- The full worker run (including the final flush) satisfies the chain
property on its list of `insertMany` calls. -/
lemma processProperties_chainKept (w n : Nat) (target : List Nat)
    (io : Nat → Bool) (e : String → RetryTrace) (stream : List Property) :
    chainKept ((processProperties w n target io e stream).attempts) := by
  unfold processProperties
  dsimp only
  obtain ⟨hc, hl⟩ := foldl_chainKept w n target io e stream ⟨0, 0, [], [], 0, []⟩
    trivial (by intro b hb; cases hb)
  split
  · apply chainKept_append _ _ hc
    intro b hb
    exact hl b hb
  · exact hc

/-- Unfolding `chainKept` along `get?`: consecutive attempts are linked. -/
lemma chainKept_get? :
    ∀ (l : List (List EnrichedP × Bool)) (j : Nat) (b b' : List EnrichedP)
      (o' : Bool),
      chainKept l → l.get? j = some (b, false) →
      l.get? (j + 1) = some (b', o') → extendsRight b b' := by
  intro l
  induction l with
  | nil => intro j b b' o' _ h1 _; cases h1
  | cons x xs ih =>
    intro j b b' o' hc h1 h2
    cases xs with
    | nil =>
      cases j with
      | zero => cases h2
      | succ j' => cases h1
    | cons y rest =>
      cases j with
      | zero =>
        rw [List.get?_cons_zero] at h1
        cases h1
        rw [List.get?_cons_succ, List.get?_cons_zero] at h2
        cases h2
        exact hc.1 rfl
      | succ j' =>
        rw [List.get?_cons_succ] at h1 h2
        exact ih j' b b' o' hc.2 h1 h2

/-! ### Helper lemmas: the coordinator -/


/-- Characterisation of the coordinator fold from an arbitrary state. -/
lemma coordRun_foldl (maxW : Nat) :
    ∀ (msgs : List WMsg) (s : CoordState),
      (msgs.foldl (coordStep maxW) s).totalProcessed
          = s.totalProcessed + (msgs.map msgCount).sum ∧
      (msgs.foldl (coordStep maxW) s).completedWorkers
          = s.completedWorkers + (msgs.filter isCompleteMsg).length ∧
      ((msgs.foldl (coordStep maxW) s).terminated = true ↔
        (s.terminated = true ∨
          (s.completedWorkers < maxW ∧
            maxW ≤ s.completedWorkers + (msgs.filter isCompleteMsg).length))) := by
  intro msgs
  induction msgs with
  | nil =>
    intro s
    refine ⟨by simp, by simp, ?_⟩
    simp only [List.foldl_nil, List.filter_nil, List.length_nil]
    constructor
    · intro h; exact Or.inl h
    · intro h
      rcases h with h | h
      · exact h
      · omega
  | cons m rest ih =>
    intro s
    cases m with
    | complete wid c =>
      rw [List.foldl_cons]
      simp only [coordStep]
      obtain ⟨i1, i2, i3⟩ := ih ⟨s.completedWorkers + 1, s.totalProcessed + c,
        s.terminated || (s.completedWorkers + 1 == maxW)⟩
      refine ⟨?_, ?_, ?_⟩
      · rw [i1]
        simp [msgCount]
        omega
      · rw [i2]
        simp [isCompleteMsg]
        omega
      · rw [i3]
        simp only [isCompleteMsg, List.filter_cons_of_pos, List.length_cons,
          Bool.or_eq_true, beq_iff_eq]
        constructor
        · intro h
          rcases h with (h | h) | h
          · exact Or.inl h
          · exact Or.inr (by omega)
          · exact Or.inr (by omega)
        · intro h
          rcases h with h | h
          · exact Or.inl (Or.inl h)
          · by_cases he : s.completedWorkers + 1 = maxW
            · exact Or.inl (Or.inr he)
            · exact Or.inr (by omega)
    | err wid =>
      rw [List.foldl_cons]
      obtain ⟨i1, i2, i3⟩ := ih s
      refine ⟨?_, ?_, ?_⟩
      · rw [show coordStep maxW s (.err wid) = s from rfl, i1]
        simp [msgCount]
      · rw [show coordStep maxW s (.err wid) = s from rfl, i2]
        simp [isCompleteMsg]
      · rw [show coordStep maxW s (.err wid) = s from rfl, i3]
        simp [isCompleteMsg]

/-! ### Helper lemmas: the retrying embedding client -/

/-- The retry loop sleeps at most `maxRetries - 1 - retries` more times:
no delay follows the final attempt. -/
lemma retryAux_delays_length (stub : Nat → Option Vec) (rand : Nat → ℚ) :
    ∀ (fuel retries : Nat),
      (retryAux stub rand 5 retries fuel).delays.length ≤ 4 - retries := by
  intro fuel
  induction fuel with
  | zero => intro retries; simp [retryAux]
  | succ fuel ih =>
    intro retries
    unfold retryAux
    dsimp only
    split
    · cases hs : stub retries with
      | some v => simp
      | none =>
        dsimp only
        split
        · simp
        · dsimp only
          have := ih (retries + 1)
          simp only [List.length_cons]
          omega
    · simp

/-! ### C8: the partition is total and disjoint -/

/-- C8 (confirmed): for every source size `M` and worker count `N ≥ 1`,
every 0-based scan index below `M` is owned by exactly one worker id in
`1..N`; the per-worker owned index sets are pairwise disjoint and their
union over `1..N` reconstructs `0..M-1`. -/
theorem partition_total_disjoint (M N : Nat) (hN : 1 ≤ N) :
    (∀ i, i < M → ∃! w, 1 ≤ w ∧ w ≤ N ∧ ownedBy i w N = true) ∧
    ((Finset.Icc 1 N).biUnion
        (fun w => (Finset.range M).filter (fun i => ownedBy i w N = true))
      = Finset.range M) ∧
    (∀ w₁ w₂, 1 ≤ w₁ → w₁ ≤ N → 1 ≤ w₂ → w₂ ≤ N → w₁ ≠ w₂ →
      ∀ i, ¬(ownedBy i w₁ N = true ∧ ownedBy i w₂ N = true)) := by
  have hmod : ∀ i : Nat, i % N < N := fun i => Nat.mod_lt _ (by omega)
  refine ⟨?_, ?_, ?_⟩
  · intro i _
    refine ⟨i % N + 1, ⟨by omega, by have := hmod i; omega, ?_⟩, ?_⟩
    · simp [ownedBy]
    · intro w hw
      obtain ⟨hw1, _, hw3⟩ := hw
      simp only [ownedBy, beq_iff_eq] at hw3
      omega
  · ext i
    simp only [Finset.mem_biUnion, Finset.mem_Icc, Finset.mem_filter,
      Finset.mem_range, ownedBy, beq_iff_eq]
    constructor
    · rintro ⟨w, _, hi, _⟩
      exact hi
    · intro hi
      exact ⟨i % N + 1, ⟨by omega, by have := hmod i; omega⟩, hi, by omega⟩
  · intro w₁ w₂ h11 h12 h21 h22 hne i hcon
    obtain ⟨hc1, hc2⟩ := hcon
    simp only [ownedBy, beq_iff_eq] at hc1 hc2
    omega

/-- C8 witness at `M = 7`, `N = 2`. -/
theorem partition_total_disjoint_witness :
    1 ≤ 2 ∧
    ((∀ i, i < 7 → ∃! w, 1 ≤ w ∧ w ≤ 2 ∧ ownedBy i w 2 = true) ∧
    ((Finset.Icc 1 2).biUnion
        (fun w => (Finset.range 7).filter (fun i => ownedBy i w 2 = true))
      = Finset.range 7) ∧
    (∀ w₁ w₂, 1 ≤ w₁ → w₁ ≤ 2 → 1 ≤ w₂ → w₂ ≤ 2 → w₁ ≠ w₂ →
      ∀ i, ¬(ownedBy i w₁ 2 = true ∧ ownedBy i w₂ 2 = true))) :=
  ⟨by norm_num, partition_total_disjoint 7 2 (by norm_num)⟩

/-! ### C1: what `processedCount` counts -/

/-- C1 (counterexample): a single owned record whose identifier is already
in the target store is skipped by the dedup check, so nothing is handed to
the batch writer, yet the returned `processedCount` is 1, not 0. -/
theorem processedCount_cx :
    (processProperties 1 1 [0] (fun _ => true) (fun _ => ⟨none, 0, []⟩)
      [pZero]).processed = 1 ∧
    (processProperties 1 1 [0] (fun _ => true) (fun _ => ⟨none, 0, []⟩)
      [pZero]).handed = [] ∧
    (processProperties 1 1 [0] (fun _ => true) (fun _ => ⟨none, 0, []⟩)
      [pZero]).processed ≠
      ((processProperties 1 1 [0] (fun _ => true) (fun _ => ⟨none, 0, []⟩)
        [pZero]).handed).length := by
  refine ⟨by decide, by decide, by decide⟩

/-- C1 (amended): `processedCount` equals the number of scanned records
that belong to the worker's partition, counting also records skipped by
the dedup check or by embedding failure; it is not the number of records
handed to the batch writer. -/
theorem processedCount_counts_owned (w n : Nat) (target : List Nat)
    (io : Nat → Bool) (e : String → RetryTrace) (stream : List Property) :
    (processProperties w n target io e stream).processed
      = ownedCountFrom w n 0 stream.length := by
  have hp : (processProperties w n target io e stream).processed
      = ((stream.foldl (stepRecord w n target io e)
          ⟨0, 0, [], [], 0, []⟩)).processed := by
    unfold processProperties
    dsimp only
    split
    · rfl
    · rfl
  rw [hp, foldl_processed w n target io e stream ⟨0, 0, [], [], 0, []⟩]
  simp

/-! ### C4: coordinator aggregation and termination -/

/-- C4 (counterexample): with 2 workers, one `complete(count 5)` report and
one `error` report, the coordinator logs and sums, but never reaches the
termination call: `completedWorkers` stays at 1 ≠ 2. -/
theorem coordinator_cx :
    (coordRun 2 [.complete 1 5, .err 2]).terminated = false ∧
    (coordRun 2 [.complete 1 5, .err 2]).totalProcessed = 5 ∧
    (coordRun 2 [.complete 1 5, .err 2]).completedWorkers = 1 := by
  refine ⟨by decide, by decide, by decide⟩

/-- C4 (amended): the coordinator sums `propertiesProcessed` over
`complete` reports and ignores `error` reports in the completion count, so
the termination call (`process.exit(0)`) is reached exactly when the number
of `complete` reports reaches `maxWorkers`; a run in which any of the `N`
workers reports an error never terminates the primary. -/
theorem coordinator_terminates_iff (maxW : Nat) (msgs : List WMsg) :
    (coordRun maxW msgs).totalProcessed = (msgs.map msgCount).sum ∧
    ((coordRun maxW msgs).terminated = true ↔
      (0 < maxW ∧ maxW ≤ (msgs.filter isCompleteMsg).length)) := by
  obtain ⟨h1, _, h3⟩ := coordRun_foldl maxW msgs ⟨0, 0, false⟩
  refine ⟨by simpa using h1, ?_⟩
  rw [coordRun, h3]
  simp

/-! ### C7: idempotent second run -/

/-- C7 (confirmed): if every streamed record's identifier already has a
target entry, the worker makes zero embedding-provider calls, performs zero
bulk inserts, and hands nothing to the batch writer: the dedup check skips
every owned record before the description or embedding stage. -/
theorem second_run_is_noop (w n : Nat) (target : List Nat)
    (io : Nat → Bool) (e : String → RetryTrace) (stream : List Property)
    (hall : ∀ p ∈ stream, p.id ∈ target) :
    (processProperties w n target io e stream).embedCalls = 0 ∧
    (processProperties w n target io e stream).attempts = [] ∧
    (processProperties w n target io e stream).handed = [] := by
  unfold processProperties
  dsimp only
  obtain ⟨hb, ha, he, hh⟩ :=
    foldl_dedup_inv w n target io e stream ⟨0, 0, [], [], 0, []⟩ hall
  rw [if_neg (by rw [hb]; simp)]
  exact ⟨he, ha, hh⟩

/-- C7 witness: a two-record stream whose identifiers are both present in
the target store. -/
theorem second_run_is_noop_witness :
    (∀ p ∈ [pZero, { pZero with id := 1 }], p.id ∈ [0, 1]) ∧
    ((processProperties 1 2 [0, 1] (fun _ => true) (fun _ => ⟨none, 0, []⟩)
        [pZero, { pZero with id := 1 }]).embedCalls = 0 ∧
      (processProperties 1 2 [0, 1] (fun _ => true) (fun _ => ⟨none, 0, []⟩)
        [pZero, { pZero with id := 1 }]).attempts = [] ∧
      (processProperties 1 2 [0, 1] (fun _ => true) (fun _ => ⟨none, 0, []⟩)
        [pZero, { pZero with id := 1 }]).handed = []) :=
  ⟨by decide, second_run_is_noop 1 2 [0, 1] (fun _ => true)
    (fun _ => ⟨none, 0, []⟩) [pZero, { pZero with id := 1 }] (by decide)⟩

/-! ### C3: what happens to a failed mid-stream batch -/


set_option maxRecDepth 80000 in
/-- C3 (counterexample): with 51 eligible records and a failing first
flush, the failed batch of 50 is *not* discarded: the very next
`insertMany` call (at the end of stream) carries 51 records, including
record 0 from the failed batch — so failed-batch records do appear in a
later bulk-insert call. -/
theorem failed_batch_cx :
    c3Run.attempts.map (fun a => (a.1.length, a.2)) = [(50, false), (51, true)] ∧
    (c3Run.attempts.get? 1).map
        (fun a => a.1.any (fun d => d.metadata.id == 0)) = some true := by
  refine ⟨by decide, by decide⟩

/-- C3 (amended): a failed mid-stream bulk insert is logged and the worker
continues, but the batch is retained, not discarded: the accumulator is
only cleared on success, so the batch of any failed `insertMany` call is a
prefix of the batch of the next `insertMany` call. -/
theorem failed_batch_retained (w n : Nat) (target : List Nat)
    (io : Nat → Bool) (e : String → RetryTrace) (stream : List Property)
    (j : Nat) (b b' : List EnrichedP) (o' : Bool)
    (h1 : (processProperties w n target io e stream).attempts.get? j
        = some (b, false))
    (h2 : (processProperties w n target io e stream).attempts.get? (j + 1)
        = some (b', o')) :
    extendsRight b b' :=
  chainKept_get? (processProperties w n target io e stream).attempts j b b' o'
    (processProperties_chainKept w n target io e stream) h1 h2

set_option maxRecDepth 80000 in
/-- C3 witness: in the concrete 51-record run, the failed first batch is
extended by the second insert call. -/
theorem failed_batch_retained_witness :
    extendsRight (c3Att 0).1 (c3Att 1).1 := by
  have h1 : c3Run.attempts.get? 0 = some ((c3Att 0).1, false) := by decide
  have h2 : c3Run.attempts.get? 1 = some ((c3Att 1).1, (c3Att 1).2) := by decide
  exact failed_batch_retained 1 1 [] (fun j => j != 0)
    (fun _ => ⟨some [1], 1, []⟩) c3Stream 0 (c3Att 0).1 (c3Att 1).1
    (c3Att 1).2 h1 h2

/-! ### C2 and C9: which description lines survive the filter -/

/-- A raw line that passes the filter is a line of the description. -/
lemma mem_tsLines_of_keep (p : Property) (l : String)
    (h1 : l ∈ tsRawLines p) (h2 : keepLine l = true) : l ∈ tsLines p :=
  List.mem_filter.mpr ⟨h1, h2⟩

/-- The two area lines always survive the filter (they end in `"m²"`). -/
lemma area_lines_mem (p : Property) :
    ("Area: " ++ natStr p.area ++ " m²") ∈ tsLines p ∧
    ("Total Area: " ++ natStr p.totalArea ++ " m²") ∈ tsLines p := by
  constructor
  · apply mem_tsLines_of_keep
    · simp [tsRawLines]
    · exact keepLine_append _ " m²" '²' (by decide) (by decide)
  · apply mem_tsLines_of_keep
    · simp [tsRawLines]
    · exact keepLine_append _ " m²" '²' (by decide) (by decide)

/-- The price line always survives the filter (it ends in a numeral). -/
lemma price_line_mem (p : Property) : ("Price: " ++ tsPrice p) ∈ tsLines p := by
  apply mem_tsLines_of_keep
  · simp [tsRawLines]
  · unfold tsPrice
    split
    · rw [← String.append_assoc]
      exact keepLine_append_natStr _ _
    · rw [← String.append_assoc]
      exact keepLine_append_natStr _ _

/-- The four room-count lines always survive the filter. -/
lemma count_lines_mem (p : Property) :
    ("Bedrooms: " ++ natStr p.bedrooms) ∈ tsLines p ∧
    ("Suites: " ++ natStr p.suites) ∈ tsLines p ∧
    ("Bathrooms: " ++ natStr p.bathrooms) ∈ tsLines p ∧
    ("Parking Spots: " ++ natStr p.parkingSpots) ∈ tsLines p := by
  refine ⟨?_, ?_, ?_, ?_⟩ <;>
    · apply mem_tsLines_of_keep
      · simp [tsRawLines]
      · exact keepLine_append_natStr _ _

/-- C2 (counterexample): on the all-default record (area 0, bedrooms 0),
the description contains the lines `"Area: 0 m²"` and `"Bedrooms: 0"`: a
numerically zero field is rendered as "0", not omitted. -/
theorem zero_fields_rendered_cx :
    pZero.area = 0 ∧ pZero.bedrooms = 0 ∧
    "Area: 0 m²" ∈ tsLines pZero ∧ "Bedrooms: 0" ∈ tsLines pZero ∧
    "Location: , , " ∈ tsLines pZero := by
  refine ⟨rfl, rfl, by decide, by decide, by decide⟩

/-- C2 (amended): the filter removes exactly the whitespace-only lines and
the lines ending in `": "` — that is, string-valued fields that render
empty.  Numeric fields are rendered unconditionally (as "0" when zero or
absent), so the Area, Total Area, Price, Bedrooms, Suites, Bathrooms and
Parking Spots lines are present for every record; and every emitted line
is neither blank nor ends in `": "`. -/
theorem zero_fields_rendered (p : Property) :
    ("Area: " ++ natStr p.area ++ " m²") ∈ tsLines p ∧
    ("Total Area: " ++ natStr p.totalArea ++ " m²") ∈ tsLines p ∧
    ("Price: " ++ tsPrice p) ∈ tsLines p ∧
    ("Bedrooms: " ++ natStr p.bedrooms) ∈ tsLines p ∧
    ("Suites: " ++ natStr p.suites) ∈ tsLines p ∧
    ("Bathrooms: " ++ natStr p.bathrooms) ∈ tsLines p ∧
    ("Parking Spots: " ++ natStr p.parkingSpots) ∈ tsLines p ∧
    (∀ l ∈ tsLines p, allWhite l = false ∧ endsColonSpace l = false) := by
  obtain ⟨ha1, ha2⟩ := area_lines_mem p
  obtain ⟨hc1, hc2, hc3, hc4⟩ := count_lines_mem p
  refine ⟨ha1, ha2, price_line_mem p, hc1, hc2, hc3, hc4, ?_⟩
  intro l hl
  have hk := (List.mem_filter.mp hl).2
  unfold keepLine at hk
  constructor
  · cases h : allWhite l with
    | false => rfl
    | true => rw [h] at hk; simp at hk
  · cases h : endsColonSpace l with
    | false => rfl
    | true => rw [h] at hk; simp at hk

/-- C2 witness: the Area line at the all-default record, and the filter
facts for the concrete emitted line `"Exclusive: No"`. -/
theorem zero_fields_rendered_witness :
    ("Area: " ++ natStr pZero.area ++ " m²") ∈ tsLines pZero ∧
    (allWhite "Exclusive: No" = false ∧ endsColonSpace "Exclusive: No" = false) :=
  ⟨(zero_fields_rendered pZero).1,
    (zero_fields_rendered pZero).2.2.2.2.2.2.2 "Exclusive: No" (by decide)⟩


/-- C9 (counterexample): for transaction type `"Rent"`, which contains
"rent" case-insensitively, the TypeScript price line uses the *sale*
price: the `includes("rent")` test is case-sensitive. -/
theorem price_rent_test_cx :
    strIncludes (strLower (adTransactionType pRent)) "rent" = true ∧
    "Price: Sale $200" ∈ tsLines pRent ∧
    "Price: Rent $100" ∉ tsLines pRent := by
  refine ⟨by decide, by decide, by decide⟩

/-- C9 (amended): the price line of the description is derived by a
*case-sensitive* test: if the transaction type text contains the exact
substring `"rent"`, the rent price is used, otherwise the sale/asking
price — so `"Rent"` or `"RENT"` select the sale branch. -/
theorem price_rent_test_case_sensitive (p : Property) :
    (strIncludes (adTransactionType p) "rent" = true →
      ("Price: " ++ ("Rent $" ++ natStr p.rentPrice)) ∈ tsLines p) ∧
    (strIncludes (adTransactionType p) "rent" = false →
      ("Price: " ++ ("Sale $" ++ natStr p.askingPrice)) ∈ tsLines p) := by
  have hm := price_line_mem p
  constructor
  · intro h
    unfold tsPrice at hm
    rw [if_pos h] at hm
    exact hm
  · intro h
    unfold tsPrice at hm
    rw [if_neg (by rw [h]; exact Bool.false_ne_true)] at hm
    exact hm

/-- C9 witness: at the `"Rent"` record the test is false and the sale
branch line is in the description. -/
theorem price_rent_test_case_sensitive_witness :
    strIncludes (adTransactionType pRent) "rent" = false ∧
    ("Price: " ++ ("Sale $" ++ natStr pRent.askingPrice)) ∈ tsLines pRent :=
  ⟨by decide, (price_rent_test_case_sensitive pRent).2 (by decide)⟩

/-! ### C10: TypeScript vs Go description builders -/


/-- C10 (counterexample): on the all-default record the two builders
disagree: the TypeScript output keeps zero-valued numeric lines
(`"Area: 0 m²"`, `"Price: Sale $0"`, …) and an untrimmed blank location
that the Go builder omits or trims. -/
theorem ts_go_builders_differ_cx :
    createPropertyDescription pZero ≠ goCreatePropertyDescription pZero := by
  decide

/-- C10 (amended): the two implementations are not extensionally equal:
for either value of the exclusivity flag, the all-default record yields
different description texts (TypeScript keeps zero/blank-valued lines that
Go omits), although both builders do emit the same exclusivity line. -/
theorem ts_go_builders_differ (b : Bool) :
    createPropertyDescription (pEmptyEx b) ≠ goCreatePropertyDescription (pEmptyEx b) ∧
    ("Exclusive: " ++ (if b then "Yes" else "No")) ∈ tsLines (pEmptyEx b) := by
  cases b
  · exact ⟨by decide, by decide⟩
  · exact ⟨by decide, by decide⟩

/-- C10 witness: the disagreement at the exclusive all-default record. -/
theorem ts_go_builders_differ_witness :
    createPropertyDescription (pEmptyEx true) ≠ goCreatePropertyDescription (pEmptyEx true) :=
  (ts_go_builders_differ true).1

/-! ### C5: the backoff delay formula -/

/-- C5 (counterexample): with the random draw 3/4, the delay slept after
the first failed attempt is `1000 * 2^0 * (0.5 + 0.75) = 1250` ms, which
exceeds `1000 * 2^0 * 1.0`, the largest delay the claimed jitter interval
`[0.5, 1.0]` allows: the code's jitter multiplier is `0.5 + random()`,
ranging over `[0.5, 1.5)`, not `[0.5, 1.0]`. -/
theorem backoff_jitter_cx :
    (generateEmbeddingWithRetry (fun _ => none) (fun _ => 3/4) 5).delays.get? 0
        = some 1250
    ∧ (1000 * 2 ^ (1 - 1) * (1 : ℚ) < 1250) := by
  constructor
  · norm_num [generateEmbeddingWithRetry, retryAux]
  · norm_num

/-- C5 (amended): after failed attempt `k` (1-indexed, `k < maxRetries`),
the client sleeps exactly `1000 * 2^(k-1) * (0.5 + r)` ms where `r` is the
random draw, so the jitter multiplier ranges over `[0.5, 1.5)`, not
`[0.5, 1.0]`; the final attempt, if it fails, adds no further delay (at
most 4 delays are ever slept). -/
theorem backoff_delay_formula (stub : Nat → Option Vec) (rand : Nat → ℚ)
    (k : Nat) (hk1 : 1 ≤ k) (hk : k < 5)
    (hfail : ∀ i, i < k → stub i = none)
    (hr0 : ∀ i, 0 ≤ rand i) (hr1 : ∀ i, rand i < 1) :
    (generateEmbeddingWithRetry stub rand 5).delays.get? (k - 1)
        = some (1000 * 2 ^ (k - 1) * (1/2 + rand (k - 1)))
    ∧ ((1:ℚ)/2 ≤ 1/2 + rand (k - 1))
    ∧ ((1:ℚ)/2 + rand (k - 1) < 3/2)
    ∧ (generateEmbeddingWithRetry stub rand 5).delays.length ≤ 4 := by
  refine ⟨?_, by linarith [hr0 (k - 1)], by linarith [hr1 (k - 1)],
    by simpa using retryAux_delays_length stub rand 5 0⟩
  interval_cases k
  · norm_num [generateEmbeddingWithRetry, retryAux, hfail 0 (by norm_num),
      List.get?_cons_succ, List.get?_cons_zero]
  · norm_num [generateEmbeddingWithRetry, retryAux, hfail 0 (by norm_num),
      hfail 1 (by norm_num), List.get?_cons_succ, List.get?_cons_zero]
  · norm_num [generateEmbeddingWithRetry, retryAux, hfail 0 (by norm_num),
      hfail 1 (by norm_num), hfail 2 (by norm_num),
      List.get?_cons_succ, List.get?_cons_zero]
  · norm_num [generateEmbeddingWithRetry, retryAux, hfail 0 (by norm_num),
      hfail 1 (by norm_num), hfail 2 (by norm_num), hfail 3 (by norm_num),
      List.get?_cons_succ, List.get?_cons_zero]

/-- C5 witness: concrete always-failing stub and constant random draw 1/4,
at `k = 1`. -/
theorem backoff_delay_formula_witness :
    (generateEmbeddingWithRetry (fun _ => none) (fun _ => (1:ℚ)/4) 5).delays.get? (1 - 1)
        = some (1000 * 2 ^ (1 - 1) * (1/2 + (1:ℚ)/4))
    ∧ ((1:ℚ)/2 ≤ 1/2 + (1:ℚ)/4)
    ∧ ((1:ℚ)/2 + (1:ℚ)/4 < 3/2)
    ∧ (generateEmbeddingWithRetry (fun _ => none) (fun _ => (1:ℚ)/4) 5).delays.length ≤ 4 :=
  backoff_delay_formula (fun _ => none) (fun _ => (1:ℚ)/4) 1 (by norm_num)
    (by norm_num) (fun _ _ => rfl) (fun _ => by norm_num) (fun _ => by norm_num)

/-! ### C6: call counts on exhaustion and on eventual success -/

/-- C6 (confirmed): a provider failing on every attempt yields exactly 5
calls and a `none` result, and the worker hands nothing to the batch
writer for that record; a provider failing exactly `k < 5` times and then
succeeding yields exactly `k + 1` calls, and the enriched record is handed
to the writer. -/
theorem retry_call_counts
    (stubA : Nat → Option Vec) (randA : Nat → ℚ)
    (stubB : Nat → Option Vec) (randB : Nat → ℚ)
    (v : Vec) (k : Nat) (hk : k < 5)
    (hA : ∀ i, i < 5 → stubA i = none)
    (hBf : ∀ i, i < k → stubB i = none) (hBs : stubB k = some v)
    (p : Property) (target : List Nat) (io : Nat → Bool)
    (hp : p.id ∉ target) :
    ((generateEmbeddingWithRetry stubA randA 5).calls = 5
      ∧ (generateEmbeddingWithRetry stubA randA 5).result = none)
    ∧ ((generateEmbeddingWithRetry stubB randB 5).calls = k + 1
      ∧ (generateEmbeddingWithRetry stubB randB 5).result = some v)
    ∧ (processProperties 1 1 target io
        (fun _ => generateEmbeddingWithRetry stubA randA 5) [p]).handed = []
    ∧ (processProperties 1 1 target io
        (fun _ => generateEmbeddingWithRetry stubB randB 5) [p]).handed
        = [⟨p, v⟩] := by
  have hAc : (generateEmbeddingWithRetry stubA randA 5).calls = 5 := by
    norm_num [generateEmbeddingWithRetry, retryAux, hA 0 (by norm_num),
      hA 1 (by norm_num), hA 2 (by norm_num), hA 3 (by norm_num),
      hA 4 (by norm_num)]
  have hAr : (generateEmbeddingWithRetry stubA randA 5).result = none := by
    norm_num [generateEmbeddingWithRetry, retryAux, hA 0 (by norm_num),
      hA 1 (by norm_num), hA 2 (by norm_num), hA 3 (by norm_num),
      hA 4 (by norm_num)]
  have hBc : (generateEmbeddingWithRetry stubB randB 5).calls = k + 1 := by
    interval_cases k
    · norm_num [generateEmbeddingWithRetry, retryAux, hBs]
    · norm_num [generateEmbeddingWithRetry, retryAux, hBs,
        hBf 0 (by norm_num)]
    · norm_num [generateEmbeddingWithRetry, retryAux, hBs,
        hBf 0 (by norm_num), hBf 1 (by norm_num)]
    · norm_num [generateEmbeddingWithRetry, retryAux, hBs,
        hBf 0 (by norm_num), hBf 1 (by norm_num), hBf 2 (by norm_num)]
    · norm_num [generateEmbeddingWithRetry, retryAux, hBs,
        hBf 0 (by norm_num), hBf 1 (by norm_num), hBf 2 (by norm_num),
        hBf 3 (by norm_num)]
  have hBr : (generateEmbeddingWithRetry stubB randB 5).result = some v := by
    interval_cases k
    · norm_num [generateEmbeddingWithRetry, retryAux, hBs]
    · norm_num [generateEmbeddingWithRetry, retryAux, hBs,
        hBf 0 (by norm_num)]
    · norm_num [generateEmbeddingWithRetry, retryAux, hBs,
        hBf 0 (by norm_num), hBf 1 (by norm_num)]
    · norm_num [generateEmbeddingWithRetry, retryAux, hBs,
        hBf 0 (by norm_num), hBf 1 (by norm_num), hBf 2 (by norm_num)]
    · norm_num [generateEmbeddingWithRetry, retryAux, hBs,
        hBf 0 (by norm_num), hBf 1 (by norm_num), hBf 2 (by norm_num),
        hBf 3 (by norm_num)]
  refine ⟨⟨hAc, hAr⟩, ⟨hBc, hBr⟩, ?_, ?_⟩
  · unfold processProperties
    simp only [List.foldl_cons, List.foldl_nil]
    unfold stepRecord
    simp [hp, hAr, batchSizeConst]
  · unfold processProperties
    simp only [List.foldl_cons, List.foldl_nil]
    unfold stepRecord
    simp [hp, hBr, batchSizeConst]

/-- C6 witness: an always-failing stub, and a stub failing twice then
succeeding with `[7]`, run against the all-default record with an empty
target store. -/
theorem retry_call_counts_witness :
    ((generateEmbeddingWithRetry (fun _ => none) (fun _ => (0:ℚ)) 5).calls = 5
      ∧ (generateEmbeddingWithRetry (fun _ => none) (fun _ => (0:ℚ)) 5).result = none)
    ∧ ((generateEmbeddingWithRetry (fun i => if i < 2 then none else some [7])
          (fun _ => (0:ℚ)) 5).calls = 2 + 1
      ∧ (generateEmbeddingWithRetry (fun i => if i < 2 then none else some [7])
          (fun _ => (0:ℚ)) 5).result = some [7])
    ∧ (processProperties 1 1 [] (fun _ => true)
        (fun _ => generateEmbeddingWithRetry (fun _ => none) (fun _ => (0:ℚ)) 5)
        [pZero]).handed = []
    ∧ (processProperties 1 1 [] (fun _ => true)
        (fun _ => generateEmbeddingWithRetry
          (fun i => if i < 2 then none else some [7]) (fun _ => (0:ℚ)) 5)
        [pZero]).handed = [⟨pZero, [7]⟩] :=
  retry_call_counts (fun _ => none) (fun _ => (0:ℚ))
    (fun i => if i < 2 then none else some [7]) (fun _ => (0:ℚ))
    [7] 2 (by norm_num) (fun _ _ => rfl)
    (fun i hi => by simp [hi]) rfl pZero [] (fun _ => true) (by simp)
